import Mathlib

/-!
Verification of the asmodeus typed JSON document model and hook dispatch
protocol.  The definitions below are a shallow embedding of the Python
sources:

* `asmodeus/json.py` — the typed value wrappers (`JSONableString`,
  `JSONableNumber`, `JSONableDuration`, `JSONableDate`, `JSONableUUID`)
  with their parse and serialize behaviour;
* `asmodeus/types.py` — the `Task` document (an insertion-ordered
  mapping), `Task.duplicate`, `Task.__setitem__`, `Task.tag`,
  `Task.untag`;
* `asmodeus/hook.py` — the `on_add` / `on_modify` dispatch loops.

Machine integers are modelled as `Nat`/`Int` (Python integers are
unbounded), Python `float` JSON numbers are modelled as `Rat` (no float
arithmetic is performed by the code under verification, the value is
only stored and emitted again), and fallible operations return
`Option`/`Except`.
-/

/-- JSON values, as produced by Python's `json.loads` and accepted by
`json.dumps`.  Python `float` is modelled as `Rat`: the code under
verification never computes with the number, it only stores and re-emits
it.  `int` and `float` are distinct constructors, exactly as the two
JSON number subtypes are distinct Python types. -/
inductive JSONVal where
  | null : JSONVal
  | bool (b : Bool) : JSONVal
  | str (s : String) : JSONVal
  | int (n : Int) : JSONVal
  | float (q : Rat) : JSONVal
  | arr (l : List JSONVal) : JSONVal
  | obj (l : List (String × JSONVal)) : JSONVal

/-! ## Decimal digits

Python renders non-negative integers with `str` and the hook code parses
them back with `int`; both operate on the ASCII decimal digits.  (The
Python regexes use `\d`, which also accepts non-ASCII Unicode decimal
digits; the embedding models the ASCII subset that the serializers can
ever produce.) -/

/-- The ten ASCII decimal digit characters. -/
def decDigits : List Char :=
  ['0', '1', '2', '3', '4'] ++ ['5', '6', '7', '8', '9']

/-- Is `c` an ASCII decimal digit? -/
def isDig (c : Char) : Bool := c ∈ decDigits

/-- Numeric value of a decimal digit character (0 for non-digits). -/
def digVal (c : Char) : Nat :=
  match c with
  | '0' => 0 | '1' => 1 | '2' => 2 | '3' => 3 | '4' => 4
  | '5' => 5 | '6' => 6 | '7' => 7 | '8' => 8 | '9' => 9
  | _ => 0

/-- The decimal digit character for `k < 10` (Python `str` digit). -/
def digChar (k : Nat) : Char := decDigits.getD k '0'

/-- Value of a digit string read left to right, as Python `int` does for
a string of decimal digits. -/
def digsVal (l : List Char) : Nat :=
  l.foldl (fun a c => 10 * a + digVal c) 0

/-- Fuel-indexed decimal rendering of a natural number, least
significant digit produced last; mirrors Python `str` on non-negative
`int`.  The fuel only bounds the recursion depth: `natChars` always
supplies enough. -/
def natCharsAux : Nat → Nat → List Char
  | 0, _ => []
  | fuel + 1, n =>
      if n < 10 then [digChar n]
      else natCharsAux fuel (n / 10) ++ [digChar (n % 10)]

/-- Decimal rendering of a natural number, as Python `str`. -/
def natChars (n : Nat) : List Char := natCharsAux (n + 1) n

theorem mem_decDigits_elim {c : Char} (h : c ∈ decDigits) :
    c = '0' ∨ c = '1' ∨ c = '2' ∨ c = '3' ∨ c = '4' ∨
    c = '5' ∨ c = '6' ∨ c = '7' ∨ c = '8' ∨ c = '9' := by
  simp only [decDigits, List.mem_append, List.mem_cons, List.not_mem_nil,
    or_false] at h
  tauto

theorem digChar_digVal {c : Char} (h : isDig c = true) : digChar (digVal c) = c := by
  have hm : c ∈ decDigits := by
    simpa [isDig] using h
  rcases mem_decDigits_elim hm with rfl | rfl | rfl | rfl | rfl | rfl | rfl | rfl | rfl | rfl <;> rfl

theorem digVal_lt_ten {c : Char} (h : isDig c = true) : digVal c < 10 := by
  have hm : c ∈ decDigits := by
    simpa [isDig] using h
  rcases mem_decDigits_elim hm with rfl | rfl | rfl | rfl | rfl | rfl | rfl | rfl | rfl | rfl <;> decide

theorem isDig_digChar {k : Nat} (h : k < 10) : isDig (digChar k) = true := by
  interval_cases k <;> decide

theorem digVal_digChar {k : Nat} (h : k < 10) : digVal (digChar k) = k := by
  interval_cases k <;> decide

theorem digsVal_append (l : List Char) (c : Char) :
    digsVal (l ++ [c]) = 10 * digsVal l + digVal c := by
  simp [digsVal, List.foldl_append]

theorem natCharsAux_spec :
    ∀ fuel n, n < fuel →
      (natCharsAux fuel n ≠ [] ∧
       (natCharsAux fuel n).all isDig = true ∧
       digsVal (natCharsAux fuel n) = n)
  | 0, n, h => absurd h (by omega)
  | fuel + 1, n, h => by
      by_cases h10 : n < 10
      · refine ⟨by simp [natCharsAux, h10], ?_, ?_⟩
        · simp [natCharsAux, h10, List.all_cons, isDig_digChar h10]
        · simp [natCharsAux, h10, digsVal, List.foldl, digVal_digChar h10]
      · have hrec := natCharsAux_spec fuel (n / 10) (by omega)
        refine ⟨by simp [natCharsAux, h10], ?_, ?_⟩
        · simp only [natCharsAux, if_neg h10, List.all_append, List.all_cons,
            List.all_nil, Bool.and_true, Bool.and_eq_true]
          exact ⟨hrec.2.1, isDig_digChar (Nat.mod_lt n (by omega))⟩
        · rw [natCharsAux, if_neg h10, digsVal_append, hrec.2.2,
            digVal_digChar (Nat.mod_lt n (by omega))]
          omega

theorem natChars_ne_nil (n : Nat) : natChars n ≠ [] :=
  (natCharsAux_spec (n + 1) n (by omega)).1

theorem natChars_all_dig (n : Nat) : (natChars n).all isDig = true :=
  (natCharsAux_spec (n + 1) n (by omega)).2.1

theorem digsVal_natChars (n : Nat) : digsVal (natChars n) = n :=
  (natCharsAux_spec (n + 1) n (by omega)).2.2

/-! ## The duration wrapper (`JSONableDuration`, json.py lines 215-310)

A duration value is a Python `timedelta`; the code only ever constructs
whole-second durations, so the embedding is the total number of seconds
as an `Int` (`timedelta` normalises days/seconds internally and
`__str__` starts from `int(self.total_seconds())`). -/

/-- Split a leading run of decimal digits off a character list (what the
anchored regex `\d+` groups of `JSONableDuration._norm_re` consume). -/
def takeDigs : List Char → List Char × List Char
  | [] => ([], [])
  | c :: cs =>
      if isDig c then
        let p := takeDigs cs
        (c :: p.1, p.2)
      else ([], c :: cs)

/-- One optional `\d+X` component of the duration grammar: if a nonempty
digit run immediately followed by `letter` starts the input, consume it
and return its value, otherwise consume nothing (the regex group is
optional, so a failed group leaves the input for the following groups
and the final anchor check). -/
def durComponent (letter : Char) (cs : List Char) : Nat × List Char :=
  let p := takeDigs cs
  if p.1 = [] then (0, cs)
  else
    match p.2 with
    | c :: rest' => if c = letter then (digsVal p.1, rest') else (0, cs)
    | [] => (0, cs)

/-- The `T`-section components `H`, `M`, `S` in order. -/
def parseHMS (cs : List Char) : Nat × Nat × Nat × List Char :=
  let ph := durComponent 'H' cs
  let pm := durComponent 'M' ph.2
  let ps := durComponent 'S' pm.2
  (ph.1, pm.1, ps.1, ps.2)

/-- The optional `T(\d+H)?(\d+M)?(\d+S)?` section: consumed when the
input starts with `T`, otherwise left for the final anchor check. -/
def parseTSection : List Char → Nat × Nat × Nat × List Char
  | 'T' :: cs => parseHMS cs
  | other => (0, 0, 0, other)

/-- The anchored duration regex
`P(\d+D)?(T(\d+H)?(\d+M)?(\d+S)?)?` of `JSONableDuration._norm_re`,
returning the total number of seconds. -/
def parsePDur (cs : List Char) : Option Nat :=
  match cs with
  | 'P' :: cs₁ =>
      let pd := durComponent 'D' cs₁
      let rest := parseTSection pd.2
      if rest.2.2.2 = [] then
        some (86400 * pd.1 + 3600 * rest.1 + 60 * rest.2.1 + rest.2.2.1)
      else none
  | _ => none

/-- `JSONableDuration.__new__` on a `str` argument: first the anchored
regex, then the `str.isnumeric` fallback (a nonempty all-digit string is
taken as a number of seconds). -/
def durationFromStr (s : String) : Option Int :=
  match parsePDur s.data with
  | some n => some (n : Int)
  | none =>
      if s.data ≠ [] ∧ s.data.all isDig = true then some ((digsVal s.data : Nat) : Int)
      else none

/-- One output component of `JSONableDuration.__str__`: nothing for a
zero value, otherwise an optional sign, the decimal digits and the unit
letter. -/
def durCompChars (neg : Bool) (k : Nat) (letter : Char) : List Char :=
  if k = 0 then []
  else (if neg then ['-'] else []) ++ natChars k ++ [letter]

/-- `JSONableDuration.__str__` (json.py lines 266-298): `PT0S` for zero,
otherwise `P`, the day component, and — when any sub-day component is
nonzero — `T` followed by the hour, minute and second components, each
omitted when zero and each prefixed with `-` when the duration is
negative. -/
def durationStr (n : Int) : String :=
  if n = 0 then "PT0S"
  else
    let neg := decide (n < 0)
    let m := n.natAbs
    let days := m / 86400
    let hours := m % 86400 / 3600
    let minutes := m % 86400 % 3600 / 60
    let secs := m % 86400 % 3600 % 60
    let tPart : List Char :=
      if hours = 0 ∧ minutes = 0 ∧ secs = 0 then []
      else 'T' :: (durCompChars neg hours 'H' ++ durCompChars neg minutes 'M' ++
                   durCompChars neg secs 'S')
    ⟨'P' :: (durCompChars neg days 'D' ++ tPart)⟩

/-- Head of a list is absent or not a digit. -/
def headNotDig : List Char → Prop
  | [] => True
  | c :: _ => isDig c = false

theorem takeDigs_eq (ds rest : List Char) (hds : ds.all isDig = true)
    (hrest : headNotDig rest) : takeDigs (ds ++ rest) = (ds, rest) := by
  induction ds with
  | nil =>
      cases rest with
      | nil => rfl
      | cons c cs => simp [takeDigs, headNotDig] at hrest ⊢; simp [hrest]
  | cons c cs ih =>
      simp only [List.all_cons, Bool.and_eq_true] at hds
      simp [takeDigs, hds.1, ih hds.2]

theorem natChars_exists_cons (k : Nat) : ∃ c cs, natChars k = c :: cs := by
  rcases hn : natChars k with _ | ⟨c, cs⟩
  · exact absurd hn (natChars_ne_nil k)
  · exact ⟨c, cs, rfl⟩

theorem durComponent_emit {letter : Char} (k : Nat) (rest : List Char)
    (hletter : isDig letter = false) :
    durComponent letter (natChars k ++ letter :: rest) = (k, rest) := by
  have h := takeDigs_eq (natChars k) (letter :: rest) (natChars_all_dig k)
    (by simp [headNotDig, hletter])
  obtain ⟨c, cs, hcc⟩ := natChars_exists_cons k
  have hval : digsVal (c :: cs) = k := by rw [← hcc, digsVal_natChars]
  rw [hcc] at h ⊢
  simp only [durComponent, h]
  simp [hval]

theorem durComponent_skip_head {letter c : Char} (cs : List Char)
    (hc : isDig c = false) : durComponent letter (c :: cs) = (0, c :: cs) := by
  simp [durComponent, takeDigs, hc]

theorem durComponent_nil (letter : Char) : durComponent letter [] = (0, []) := rfl

theorem durComponent_other {letter letter' : Char} (k : Nat) (rest : List Char)
    (hdig : isDig letter' = false) (hne : letter' ≠ letter) :
    durComponent letter (natChars k ++ letter' :: rest) =
      (0, natChars k ++ letter' :: rest) := by
  have h := takeDigs_eq (natChars k) (letter' :: rest) (natChars_all_dig k)
    (by simp [headNotDig, hdig])
  obtain ⟨c, cs, hcc⟩ := natChars_exists_cons k
  rw [hcc] at h ⊢
  simp only [durComponent, h]
  simp [hne]

theorem durCompChars_zero (neg : Bool) (letter : Char) :
    durCompChars neg 0 letter = [] := rfl

theorem durCompChars_pos (k : Nat) (letter : Char) (hk : k ≠ 0) :
    durCompChars false k letter = natChars k ++ [letter] := by
  simp [durCompChars, hk]

theorem parseTSection_T (cs : List Char) : parseTSection ('T' :: cs) = parseHMS cs := rfl

theorem parseTSection_nil : parseTSection [] = (0, 0, 0, []) := rfl

theorem parseHMS_render (h m s : Nat) :
    parseHMS (durCompChars false h 'H' ++ durCompChars false m 'M' ++
              durCompChars false s 'S') = (h, m, s, []) := by
  by_cases h0 : h = 0 <;> by_cases m0 : m = 0 <;> by_cases s0 : s = 0
  · subst h0; subst m0; subst s0; rfl
  · subst h0; subst m0
    rw [durCompChars_pos _ _ s0]
    simp only [durCompChars_zero, List.nil_append, List.append_nil, parseHMS]
    rw [durComponent_other _ _ (by decide) (by decide)]
    dsimp only [List.nil_append]
    rw [durComponent_other _ _ (by decide) (by decide)]
    dsimp only [List.nil_append]
    rw [durComponent_emit _ _ (by decide)]
  · subst h0; subst s0
    rw [durCompChars_pos _ _ m0]
    simp only [durCompChars_zero, List.nil_append, List.append_nil, parseHMS]
    rw [durComponent_other _ _ (by decide) (by decide)]
    dsimp only [List.nil_append]
    rw [durComponent_emit _ _ (by decide)]
    dsimp only [List.nil_append]
    rw [durComponent_nil]
  · subst h0
    rw [durCompChars_pos _ _ m0, durCompChars_pos _ _ s0]
    simp only [durCompChars_zero, List.nil_append, List.append_nil, List.append_assoc,
      List.cons_append, List.singleton_append, parseHMS]
    rw [durComponent_other _ _ (by decide) (by decide)]
    dsimp only [List.nil_append]
    rw [durComponent_emit _ _ (by decide)]
    dsimp only [List.nil_append]
    rw [durComponent_emit _ _ (by decide)]
  · subst m0; subst s0
    rw [durCompChars_pos _ _ h0]
    simp only [durCompChars_zero, List.nil_append, List.append_nil, parseHMS]
    rw [durComponent_emit _ _ (by decide)]
    dsimp only [List.nil_append]
    rw [durComponent_nil]
    dsimp only [List.nil_append]
    rw [durComponent_nil]
  · subst m0
    rw [durCompChars_pos _ _ h0, durCompChars_pos _ _ s0]
    simp only [durCompChars_zero, List.nil_append, List.append_nil,
      List.append_assoc, List.cons_append, List.singleton_append, parseHMS]
    rw [durComponent_emit _ _ (by decide)]
    dsimp only [List.nil_append]
    rw [durComponent_other _ _ (by decide) (by decide)]
    dsimp only [List.nil_append]
    rw [durComponent_emit _ _ (by decide)]
  · subst s0
    rw [durCompChars_pos _ _ h0, durCompChars_pos _ _ m0]
    simp only [durCompChars_zero, List.nil_append, List.append_nil, List.append_assoc,
      List.cons_append, List.singleton_append, parseHMS]
    rw [durComponent_emit _ _ (by decide)]
    dsimp only [List.nil_append]
    rw [durComponent_emit _ _ (by decide)]
    dsimp only [List.nil_append]
    rw [durComponent_nil]
  · rw [durCompChars_pos _ _ h0, durCompChars_pos _ _ m0,
      durCompChars_pos _ _ s0]
    simp only [List.nil_append, List.append_nil, List.append_assoc, List.cons_append,
      List.singleton_append, parseHMS]
    rw [durComponent_emit _ _ (by decide)]
    dsimp only [List.nil_append]
    rw [durComponent_emit _ _ (by decide)]
    dsimp only [List.nil_append]
    rw [durComponent_emit _ _ (by decide)]

theorem parsePDur_render_noT (d : Nat) :
    parsePDur ('P' :: durCompChars false d 'D') = some (86400 * d) := by
  by_cases hd : d = 0
  · subst hd; rfl
  · rw [durCompChars_pos _ _ hd]
    simp only [parsePDur]
    rw [durComponent_emit _ _ (by decide)]
    dsimp only [List.nil_append]
    rw [parseTSection_nil]
    simp

theorem parsePDur_render_T (d h mi s : Nat) :
    parsePDur ('P' :: (durCompChars false d 'D' ++ 'T' ::
      (durCompChars false h 'H' ++ durCompChars false mi 'M' ++
       durCompChars false s 'S'))) =
    some (86400 * d + 3600 * h + 60 * mi + s) := by
  by_cases hd : d = 0
  · subst hd
    simp only [durCompChars_zero, List.nil_append, List.append_nil, parsePDur]
    rw [durComponent_skip_head _ (by decide)]
    dsimp only [List.nil_append]
    rw [parseTSection_T, parseHMS_render]
    simp
  · rw [durCompChars_pos _ _ hd]
    simp only [List.nil_append, List.append_nil, List.append_assoc, List.cons_append,
      List.singleton_append, parsePDur]
    rw [durComponent_emit _ _ (by decide)]
    dsimp only [List.nil_append]
    rw [parseTSection_T, ← List.append_assoc, parseHMS_render]
    simp

theorem durationStr_roundtrip (n : Nat) :
    durationFromStr (durationStr (n : Int)) = some ((n : Nat) : Int) := by
  by_cases hn0 : n = 0
  · subst hn0; rfl
  · have hne : (n : Int) ≠ 0 := by exact_mod_cast hn0
    have hnneg : decide ((n : Int) < 0) = false := by
      simp [Int.not_lt.mpr (Int.natCast_nonneg n)]
    have habs : ((n : Int)).natAbs = n := Int.natAbs_ofNat n
    simp only [durationStr, if_neg hne, hnneg, habs]
    by_cases hT : n % 86400 / 3600 = 0 ∧ n % 86400 % 3600 / 60 = 0 ∧
        n % 86400 % 3600 % 60 = 0
    · rw [if_pos hT]
      simp only [durationFromStr, List.append_nil]
      rw [parsePDur_render_noT]
      have hmod : 86400 * (n / 86400) = n := by omega
      rw [hmod]
    · rw [if_neg hT]
      simp only [durationFromStr]
      rw [parsePDur_render_T]
      have hmod : 86400 * (n / 86400) + 3600 * (n % 86400 / 3600) +
          60 * (n % 86400 % 3600 / 60) + n % 86400 % 3600 % 60 = n := by omega
      rw [hmod]

theorem durationFromStr_nonneg {s : String} {d : Int}
    (h : durationFromStr s = some d) : ∃ k : Nat, d = (k : Int) := by
  unfold durationFromStr at h
  rcases hp : parsePDur s.data with _ | n
  · rw [hp] at h
    by_cases hc : s.data ≠ [] ∧ s.data.all isDig = true
    · rw [if_pos hc] at h
      exact ⟨digsVal s.data, by injection h with h; omega⟩
    · rw [if_neg hc] at h; cases h
  · rw [hp] at h
    exact ⟨n, by injection h with h; omega⟩

/-! ## Sign marking

`negMark` inserts a `-` in front of every maximal digit run of a string.
`JSONableDuration.__str__` emits, for a negative duration, exactly the
components of the corresponding positive duration with every component's
digit run prefixed by `-`; the theorem for the duration-formatting claim
states this as an equation through `negMark`. -/

mutual

/-- Insert `-` before every maximal run of decimal digits (scanning
outside a digit run). -/
def negMark : List Char → List Char
  | [] => []
  | c :: cs => if isDig c then '-' :: c :: negMarkRun cs else c :: negMark cs

/-- Continuation of `negMark` inside a digit run. -/
def negMarkRun : List Char → List Char
  | [] => []
  | c :: cs => if isDig c then c :: negMarkRun cs else c :: negMark cs

end

theorem negMark_cons_nonDig {c : Char} (cs : List Char) (hc : isDig c = false) :
    negMark (c :: cs) = c :: negMark cs := by
  simp [negMark, hc]

theorem negMarkRun_digits (ds rest : List Char) (hds : ds.all isDig = true)
    (hrest : headNotDig rest) : negMarkRun (ds ++ rest) = ds ++ negMark rest := by
  induction ds with
  | nil =>
      cases rest with
      | nil => rfl
      | cons c cs =>
          simp only [headNotDig] at hrest
          simp [negMarkRun, negMark, hrest]
  | cons d ds ih =>
      simp only [List.all_cons, Bool.and_eq_true] at hds
      simp [negMarkRun, hds.1, ih hds.2]

theorem negMark_digits (ds rest : List Char) (hne : ds ≠ [])
    (hds : ds.all isDig = true) (hrest : headNotDig rest) :
    negMark (ds ++ rest) = '-' :: (ds ++ negMark rest) := by
  cases ds with
  | nil => exact absurd rfl hne
  | cons d ds =>
      simp only [List.all_cons, Bool.and_eq_true] at hds
      simp [negMark, hds.1, negMarkRun_digits ds rest hds.2 hrest]

theorem negMark_comp (k : Nat) (L : Char) (hL : isDig L = false)
    (rest : List Char) :
    negMark (durCompChars false k L ++ rest) =
      durCompChars true k L ++ negMark rest := by
  by_cases hk : k = 0
  · subst hk; simp [durCompChars]
  · simp only [durCompChars, if_neg hk, Bool.false_eq_true, if_false, if_true,
      List.nil_append, List.append_assoc, List.singleton_append, List.cons_append]
    rw [negMark_digits (natChars k) (L :: rest) (natChars_ne_nil k)
      (natChars_all_dig k) (by simp [headNotDig, hL])]
    rw [negMark_cons_nonDig rest hL]

theorem negMark_comp_nil (k : Nat) (L : Char) (hL : isDig L = false) :
    negMark (durCompChars false k L) = durCompChars true k L := by
  have h := negMark_comp k L hL []
  simpa [negMark] using h

theorem durationStr_neg_negMark (n : Int) (hn : n < 0) :
    (durationStr n).data = negMark (durationStr (-n)).data := by
  have hne : n ≠ 0 := by omega
  have hne' : -n ≠ 0 := by omega
  have hp : decide (n < 0) = true := by simp [hn]
  have hp' : decide (-n < 0) = false := by simp; omega
  have habs : (-n).natAbs = n.natAbs := Int.natAbs_neg n
  simp only [durationStr, if_neg hne, if_neg hne', hp, hp', habs]
  rw [negMark_cons_nonDig _ (by decide)]
  by_cases hT : n.natAbs % 86400 / 3600 = 0 ∧ n.natAbs % 86400 % 3600 / 60 = 0 ∧
      n.natAbs % 86400 % 3600 % 60 = 0
  · rw [if_pos hT, if_pos hT, List.append_nil, List.append_nil,
      negMark_comp_nil _ _ (by decide)]
  · rw [if_neg hT, if_neg hT,
      negMark_comp _ _ (by decide),
      negMark_cons_nonDig _ (by decide),
      List.append_assoc, List.append_assoc,
      negMark_comp _ _ (by decide),
      negMark_comp _ _ (by decide),
      negMark_comp_nil _ _ (by decide)]

/-- `durationFromStr` never needs a sign: the grammar has none, so every
parsed duration is non-negative; this is the wrapper-level statement that
reuses `durationStr_roundtrip` for arbitrary accepted inputs. -/
theorem durationFromStr_reparse {s : String} {d : Int}
    (h : durationFromStr s = some d) :
    durationFromStr (durationStr d) = some d := by
  obtain ⟨k, rfl⟩ := durationFromStr_nonneg h
  exact durationStr_roundtrip k

/-! ## The string wrapper (`JSONableString`, json.py lines 102-113)

`from_json_val` asserts the JSON value is a string and wraps it;
`_json_pre_dump` returns the string itself. -/

/-- `JSONableString.from_json_val`. -/
def stringFromJson : JSONVal → Option String
  | JSONVal.str s => some s
  | _ => none

/-- `JSONableString._json_pre_dump`. -/
def stringPreDump (s : String) : JSONVal := JSONVal.str s

/-! ## The number wrapper (`JSONableNumber`, json.py lines 313-336)

`from_json_val` asserts the value is an `int` or `float` (a Python
`bool` passes the `int` instance check) and `__init__` remembers an
original `int` (or `bool`) so `_json_pre_dump` can emit it unchanged;
a `float` is emitted as itself. -/

/-- The stored state of a `JSONableNumber`: the remembered `_int` (which
can also be a `bool`, since `bool` is an `int` subtype in Python) or the
plain float value. -/
inductive NumberVal where
  | ofInt (n : Int) : NumberVal
  | ofFloat (q : Rat) : NumberVal
  | ofBool (b : Bool) : NumberVal
deriving DecidableEq

/-- `JSONableNumber.from_json_val` followed by `__init__`. -/
def numberFromJson : JSONVal → Option NumberVal
  | JSONVal.int n => some (NumberVal.ofInt n)
  | JSONVal.float q => some (NumberVal.ofFloat q)
  | JSONVal.bool b => some (NumberVal.ofBool b)
  | _ => none

/-- `JSONableNumber._json_pre_dump`: the remembered `_int` when present,
otherwise the float value. -/
def numberPreDump : NumberVal → JSONVal
  | NumberVal.ofInt n => JSONVal.int n
  | NumberVal.ofFloat q => JSONVal.float q
  | NumberVal.ofBool b => JSONVal.bool b

/-! ## The UUID wrapper (`JSONableUUID`, json.py lines 559-593)

A `uuid.UUID` is a 128-bit integer.  The string constructor strips
hyphens, requires 32 hexadecimal digits (either case) and reads them as
a base-16 integer; `_json_pre_dump` is `str(self)`, the canonical
lowercase hyphenated form.  (The constructor also strips `urn:`/`uuid:`
prefixes and braces, spellings the model leaves out; the serializer
never produces them.) -/

/-- Hexadecimal digit characters accepted by Python `int(s, 16)`. -/
def hexDigits : List Char :=
  decDigits ++ (['a', 'b', 'c', 'd', 'e', 'f'] ++ ['A', 'B', 'C', 'D', 'E', 'F'])

/-- Is `c` a hexadecimal digit? -/
def isHexDig (c : Char) : Bool := c ∈ hexDigits

/-- Value of one hexadecimal digit character (0 for non-digits). -/
def hexVal (c : Char) : Nat :=
  match c with
  | '0' => 0 | '1' => 1 | '2' => 2 | '3' => 3 | '4' => 4
  | '5' => 5 | '6' => 6 | '7' => 7 | '8' => 8 | '9' => 9
  | 'a' => 10 | 'b' => 11 | 'c' => 12 | 'd' => 13 | 'e' => 14 | 'f' => 15
  | 'A' => 10 | 'B' => 11 | 'C' => 12 | 'D' => 13 | 'E' => 14 | 'F' => 15
  | _ => 0

/-- Value of a hexadecimal digit string read left to right. -/
def hexsVal (l : List Char) : Nat :=
  l.foldl (fun a c => 16 * a + hexVal c) 0

/-- The lowercase hexadecimal digit for `k < 16` (Python `%x`). -/
def hexChar (k : Nat) : Char :=
  (decDigits ++ ['a', 'b', 'c', 'd', 'e', 'f']).getD k '0'

/-- Fixed-width lowercase hexadecimal rendering, as Python `%032x`
renders the 128-bit integer of a UUID (width recursion, most significant
digit first). -/
def hexPad : Nat → Nat → List Char
  | 0, _ => []
  | w + 1, n => hexPad w (n / 16) ++ [hexChar (n % 16)]

/-- `uuid.UUID(hex=s)` as invoked by `JSONableUUID.from_json_val`:
remove hyphens, require 32 hexadecimal digits, read base 16. -/
def uuidFromStr (s : String) : Option Nat :=
  let cs := s.data.filter (fun c => c ≠ '-')
  if cs.length = 32 ∧ cs.all isHexDig = true then some (hexsVal cs) else none

/-- `str(uuid)`: the canonical 8-4-4-4-12 lowercase hyphenated form of
the 128-bit integer, emitted by `JSONableUUID._json_pre_dump`. -/
def uuidStrChars (u : Nat) : List Char :=
  let h := hexPad 32 u
  h.take 8 ++ '-' :: ((h.drop 8).take 4 ++ '-' ::
    (((h.drop 8).drop 4).take 4 ++ '-' ::
      ((((h.drop 8).drop 4).drop 4).take 4 ++ '-' ::
        (((h.drop 8).drop 4).drop 4).drop 4)))

/-- `JSONableUUID._json_pre_dump`. -/
def uuidStr (u : Nat) : String := ⟨uuidStrChars u⟩

theorem mem_hexDigits_elim {c : Char} (h : c ∈ hexDigits) :
    c = '0' ∨ c = '1' ∨ c = '2' ∨ c = '3' ∨ c = '4' ∨ c = '5' ∨ c = '6' ∨
    c = '7' ∨ c = '8' ∨ c = '9' ∨ c = 'a' ∨ c = 'b' ∨ c = 'c' ∨ c = 'd' ∨
    c = 'e' ∨ c = 'f' ∨ c = 'A' ∨ c = 'B' ∨ c = 'C' ∨ c = 'D' ∨ c = 'E' ∨
    c = 'F' := by
  simp only [hexDigits, decDigits, List.mem_append, List.mem_cons,
    List.not_mem_nil, or_false] at h
  tauto

theorem hexVal_lt_sixteen {c : Char} (h : isHexDig c = true) : hexVal c < 16 := by
  have hm : c ∈ hexDigits := by simpa [isHexDig] using h
  rcases mem_hexDigits_elim hm with rfl | rfl | rfl | rfl | rfl | rfl | rfl |
    rfl | rfl | rfl | rfl | rfl | rfl | rfl | rfl | rfl | rfl | rfl | rfl |
    rfl | rfl | rfl <;> decide

theorem isHexDig_hexChar {k : Nat} (h : k < 16) : isHexDig (hexChar k) = true := by
  interval_cases k <;> decide

theorem hexVal_hexChar {k : Nat} (h : k < 16) : hexVal (hexChar k) = k := by
  interval_cases k <;> decide

theorem hexChar_ne_hyphen {k : Nat} (h : k < 16) : hexChar k ≠ '-' := by
  interval_cases k <;> decide

theorem hexPad_length (w n : Nat) : (hexPad w n).length = w := by
  induction w generalizing n with
  | zero => rfl
  | succ w ih => simp [hexPad, ih]

theorem hexPad_all_hex (w n : Nat) : (hexPad w n).all isHexDig = true := by
  induction w generalizing n with
  | zero => rfl
  | succ w ih =>
      simp only [hexPad, List.all_append, List.all_cons, List.all_nil,
        Bool.and_true, Bool.and_eq_true]
      exact ⟨ih (n / 16), isHexDig_hexChar (Nat.mod_lt n (by omega))⟩

theorem hexPad_ne_hyphen (w n : Nat) : ∀ c ∈ hexPad w n, c ≠ '-' := by
  induction w generalizing n with
  | zero => intro c hc; cases hc
  | succ w ih =>
      intro c hc
      rcases List.mem_append.mp hc with hc | hc
      · exact ih (n / 16) c hc
      · rcases List.mem_singleton.mp hc with rfl
        exact hexChar_ne_hyphen (Nat.mod_lt n (by omega))

theorem hexsVal_append (l : List Char) (c : Char) :
    hexsVal (l ++ [c]) = 16 * hexsVal l + hexVal c := by
  simp [hexsVal, List.foldl_append]

theorem hexsVal_hexPad (w : Nat) :
    ∀ n, n < 16 ^ w → hexsVal (hexPad w n) = n := by
  induction w with
  | zero => intro n hn; interval_cases n; rfl
  | succ w ih =>
      intro n hn
      have hdiv : n / 16 < 16 ^ w :=
        Nat.div_lt_of_lt_mul (by rw [Nat.mul_comm, ← Nat.pow_succ]; exact hn)
      rw [hexPad, hexsVal_append, ih (n / 16) hdiv,
        hexVal_hexChar (Nat.mod_lt n (by omega))]
      omega

theorem hexsValAux_lt (l : List Char) :
    ∀ a, l.all isHexDig = true →
      l.foldl (fun a c => 16 * a + hexVal c) a < (a + 1) * 16 ^ l.length := by
  induction l with
  | nil => intro a _; simp only [List.foldl_nil, List.length_nil, Nat.pow_zero,
      Nat.mul_one]; omega
  | cons c l ih =>
      intro a hall
      simp only [List.all_cons, Bool.and_eq_true] at hall
      have h1 := ih (16 * a + hexVal c) hall.2
      have hc := hexVal_lt_sixteen hall.1
      calc List.foldl (fun a c => 16 * a + hexVal c) (16 * a + hexVal c) l
          < (16 * a + hexVal c + 1) * 16 ^ l.length := h1
        _ ≤ (16 * (a + 1)) * 16 ^ l.length := by
            apply Nat.mul_le_mul_right
            omega
        _ = (a + 1) * 16 ^ (c :: l).length := by
            simp only [List.length_cons, Nat.pow_succ]
            ring

theorem hexsVal_lt (l : List Char) (h : l.all isHexDig = true) :
    hexsVal l < 16 ^ l.length := by
  have h1 := hexsValAux_lt l 0 h
  simp only [Nat.zero_add, Nat.one_mul] at h1
  exact h1

theorem uuidStrChars_filter (u : Nat) :
    (uuidStrChars u).filter (fun c => c ≠ '-') = hexPad 32 u := by
  have hsub : ∀ l : List Char, (∀ c ∈ l, c ≠ '-') →
      l.filter (fun c => c ≠ '-') = l := by
    intro l hl
    apply List.filter_eq_self.mpr
    intro c hc
    simpa using hl c hc
  have hne := hexPad_ne_hyphen 32 u
  have hhy : ∀ l : List Char,
      List.filter (fun c => c ≠ '-') ('-' :: l) =
        List.filter (fun c => c ≠ '-') l := by
    intro l; simp
  simp only [uuidStrChars, List.filter_append, hhy]
  rw [hsub _ (fun c hc => hne c (List.take_subset 8 _ hc)),
    hsub _ (fun c hc => hne c (List.drop_subset 8 _ (List.take_subset 4 _ hc))),
    hsub _ (fun c hc => hne c
      (List.drop_subset 8 _ (List.drop_subset 4 _ (List.take_subset 4 _ hc)))),
    hsub _ (fun c hc => hne c
      (List.drop_subset 8 _
        (List.drop_subset 4 _ (List.drop_subset 4 _ (List.take_subset 4 _ hc))))),
    hsub _ (fun c hc => hne c
      (List.drop_subset 8 _
        (List.drop_subset 4 _ (List.drop_subset 4 _ (List.drop_subset 4 _ hc)))))]
  rw [List.take_append_drop 4 (List.drop 4 (List.drop 4 (List.drop 8 (hexPad 32 u)))),
    List.take_append_drop 4 (List.drop 4 (List.drop 8 (hexPad 32 u))),
    List.take_append_drop 4 (List.drop 8 (hexPad 32 u)),
    List.take_append_drop 8 (hexPad 32 u)]

theorem uuidStr_roundtrip (u : Nat) (hu : u < 16 ^ 32) :
    uuidFromStr (uuidStr u) = some u := by
  simp only [uuidFromStr, uuidStr]
  rw [uuidStrChars_filter]
  rw [if_pos ⟨hexPad_length 32 u, hexPad_all_hex 32 u⟩, hexsVal_hexPad 32 u hu]

theorem uuidFromStr_lt {s : String} {u : Nat} (h : uuidFromStr s = some u) :
    u < 16 ^ 32 := by
  unfold uuidFromStr at h
  by_cases hc : (s.data.filter (fun c => c ≠ '-')).length = 32 ∧
      (s.data.filter (fun c => c ≠ '-')).all isHexDig = true
  · rw [if_pos hc] at h
    injection h with h
    rw [← h, ← hc.1]
    exact hexsVal_lt _ hc.2
  · rw [if_neg hc] at h; cases h

/-! ## The timestamp wrapper (`JSONableDate`, json.py lines 116-212)

`JSONableDate` subclasses `datetime.datetime`; `from_json_val` parses a
string through `datetime.datetime.fromisoformat` (Python >= 3.11) and
`_json_pre_dump` emits `astimezone(utc).strftime(%Y-%m-%dT%H:%M:%SZ)`.
The embedding models the parser on the UTC-denoting subset of the
ISO-8601 grammar that the serializer itself speaks: the fixed-width
extended form with `Z` or `+00:00` as the offset (both denote UTC, so
`astimezone` does not move the fields; inputs with other offsets, with
microseconds, in the basic format, or needing the `task calc` subprocess
fallback are outside the model and map to `none`). -/

/-- A parsed UTC timestamp: the six broken-down fields. -/
structure DateVal where
  year : Nat
  month : Nat
  day : Nat
  hour : Nat
  minute : Nat
  second : Nat
deriving DecidableEq

/-- Gregorian leap-year rule, as in Python's `datetime`. -/
def isLeapYear (y : Nat) : Bool := y % 4 = 0 ∧ (y % 100 ≠ 0 ∨ y % 400 = 0)

/-- Days in a month, as in Python's `datetime`. -/
def daysInMonth (y mo : Nat) : Nat :=
  if mo = 2 then (if isLeapYear y then 29 else 28)
  else if mo = 4 ∨ mo = 6 ∨ mo = 9 ∨ mo = 11 then 30
  else 31

/-- The range checks `datetime.datetime` performs on its fields
(`MINYEAR = 1`, `MAXYEAR = 9999`). -/
def validDate (y mo d h mi s : Nat) : Bool :=
  1 ≤ y ∧ y ≤ 9999 ∧ 1 ≤ mo ∧ mo ≤ 12 ∧ 1 ≤ d ∧ d ≤ daysInMonth y mo ∧
    h ≤ 23 ∧ mi ≤ 59 ∧ s ≤ 59

/-- Assemble and range-check the six fields from their digit
characters. -/
def mkDate (y1 y2 y3 y4 mo1 mo2 d1 d2 h1 h2 mi1 mi2 s1 s2 : Char) :
    Option DateVal :=
  if ([y1, y2, y3, y4, mo1, mo2, d1, d2, h1, h2, mi1, mi2, s1, s2].all isDig)
      = true then
    let y := digsVal [y1, y2, y3, y4]
    let mo := digsVal [mo1, mo2]
    let d := digsVal [d1, d2]
    let h := digsVal [h1, h2]
    let mi := digsVal [mi1, mi2]
    let s := digsVal [s1, s2]
    if validDate y mo d h mi s then some ⟨y, mo, d, h, mi, s⟩ else none
  else none

/-- `datetime.datetime.fromisoformat` on the UTC-denoting fixed-width
extended ISO-8601 grammar `YYYY-MM-DDTHH:MM:SS` followed by `Z` or
`+00:00`. -/
def dateFromChars : List Char → Option DateVal
  | y1 :: y2 :: y3 :: y4 :: c1 :: mo1 :: mo2 :: c2 :: d1 :: d2 :: c3 ::
      h1 :: h2 :: c4 :: mi1 :: mi2 :: c5 :: s1 :: s2 :: rest =>
      if c1 = '-' ∧ c2 = '-' ∧ c3 = 'T' ∧ c4 = ':' ∧ c5 = ':' ∧
          (rest = ['Z'] ∨ rest = ['+', '0', '0', ':', '0', '0']) then
        mkDate y1 y2 y3 y4 mo1 mo2 d1 d2 h1 h2 mi1 mi2 s1 s2
      else none
  | _ => none

/-- `JSONableDate.from_json_val` (restricted as described above). -/
def dateFromStr (s : String) : Option DateVal := dateFromChars s.data

/-- Two-digit zero-padded rendering (`strftime` `%m`, `%d`, `%H`, `%M`,
`%S` on in-range values). -/
def pad2 (n : Nat) : List Char := [digChar (n / 10), digChar (n % 10)]

/-- Four-digit zero-padded rendering (`strftime` `%Y` on in-range
values). -/
def pad4 (n : Nat) : List Char :=
  [digChar (n / 1000), digChar (n / 100 % 10), digChar (n / 10 % 10),
   digChar (n % 10)]

/-- `JSONableDate._json_pre_dump` (json.py lines 193-195): the stored
value is UTC, so `astimezone(utc)` leaves the fields unchanged and
`strftime` renders them zero-padded with a trailing `Z`. -/
def datePreDump (dt : DateVal) : String :=
  ⟨pad4 dt.year ++ '-' :: (pad2 dt.month ++ '-' :: (pad2 dt.day ++ 'T' ::
    (pad2 dt.hour ++ ':' :: (pad2 dt.minute ++ ':' ::
      (pad2 dt.second ++ ['Z'])))))⟩

theorem digsVal_pair (a b : Char) : digsVal [a, b] = 10 * digVal a + digVal b := by
  simp [digsVal, List.foldl]

theorem digsVal_quad (a b c d : Char) :
    digsVal [a, b, c, d] =
      10 * (10 * (10 * digVal a + digVal b) + digVal c) + digVal d := by
  simp [digsVal, List.foldl]

theorem pad2_digsVal {a b : Char} (ha : isDig a = true) (hb : isDig b = true) :
    pad2 (digsVal [a, b]) = [a, b] := by
  have ha' := digVal_lt_ten ha
  have hb' := digVal_lt_ten hb
  rw [digsVal_pair, pad2]
  have h1 : (10 * digVal a + digVal b) / 10 = digVal a := by omega
  have h2 : (10 * digVal a + digVal b) % 10 = digVal b := by omega
  rw [h1, h2, digChar_digVal ha, digChar_digVal hb]

theorem pad4_digsVal {a b c d : Char} (ha : isDig a = true)
    (hb : isDig b = true) (hc : isDig c = true) (hd : isDig d = true) :
    pad4 (digsVal [a, b, c, d]) = [a, b, c, d] := by
  have ha' := digVal_lt_ten ha
  have hb' := digVal_lt_ten hb
  have hc' := digVal_lt_ten hc
  have hd' := digVal_lt_ten hd
  rw [digsVal_quad, pad4]
  have h1 : (10 * (10 * (10 * digVal a + digVal b) + digVal c) + digVal d) /
      1000 = digVal a := by omega
  have h2 : (10 * (10 * (10 * digVal a + digVal b) + digVal c) + digVal d) /
      100 % 10 = digVal b := by omega
  have h3 : (10 * (10 * (10 * digVal a + digVal b) + digVal c) + digVal d) /
      10 % 10 = digVal c := by omega
  have h4 : (10 * (10 * (10 * digVal a + digVal b) + digVal c) + digVal d) %
      10 = digVal d := by omega
  rw [h1, h2, h3, h4, digChar_digVal ha, digChar_digVal hb, digChar_digVal hc,
    digChar_digVal hd]

theorem digsVal_pad2 {n : Nat} (h : n ≤ 99) : digsVal (pad2 n) = n := by
  rw [pad2, digsVal_pair, digVal_digChar (by omega), digVal_digChar (by omega)]
  omega

theorem digsVal_pad4 {n : Nat} (h : n ≤ 9999) : digsVal (pad4 n) = n := by
  rw [pad4, digsVal_quad, digVal_digChar (by omega), digVal_digChar (by omega),
    digVal_digChar (by omega), digVal_digChar (by omega)]
  omega

theorem digsVal_pad4_chars (n : Nat) (h : n ≤ 9999) :
    digsVal [digChar (n / 1000), digChar (n / 100 % 10), digChar (n / 10 % 10),
      digChar (n % 10)] = n := digsVal_pad4 h

theorem digsVal_pad2_chars (n : Nat) (h : n ≤ 99) :
    digsVal [digChar (n / 10), digChar (n % 10)] = n := digsVal_pad2 h

theorem dateFromChars_preDump (dt : DateVal)
    (hv : validDate dt.year dt.month dt.day dt.hour dt.minute dt.second = true) :
    dateFromChars (datePreDump dt).data = some dt := by
  obtain ⟨y, mo, d, h, mi, s⟩ := dt
  simp only [validDate, decide_eq_true_eq] at hv
  obtain ⟨hy1, hy2, hmo1, hmo2, hd1, hd2, hh, hmi, hs⟩ := hv
  have hdm : daysInMonth y mo ≤ 31 := by
    unfold daysInMonth
    split <;> try split
    all_goals simp_all
  simp only [datePreDump, pad4, pad2, List.cons_append, List.nil_append]
  simp only [dateFromChars]
  rw [if_pos (by simp)]
  simp only [mkDate]
  have e1 : isDig (digChar (y / 1000)) = true := isDig_digChar (by omega)
  have e2 : isDig (digChar (y / 100 % 10)) = true := isDig_digChar (by omega)
  have e3 : isDig (digChar (y / 10 % 10)) = true := isDig_digChar (by omega)
  have e4 : isDig (digChar (y % 10)) = true := isDig_digChar (by omega)
  have e5 : isDig (digChar (mo / 10)) = true := isDig_digChar (by omega)
  have e6 : isDig (digChar (mo % 10)) = true := isDig_digChar (by omega)
  have e7 : isDig (digChar (d / 10)) = true := isDig_digChar (by omega)
  have e8 : isDig (digChar (d % 10)) = true := isDig_digChar (by omega)
  have e9 : isDig (digChar (h / 10)) = true := isDig_digChar (by omega)
  have e10 : isDig (digChar (h % 10)) = true := isDig_digChar (by omega)
  have e11 : isDig (digChar (mi / 10)) = true := isDig_digChar (by omega)
  have e12 : isDig (digChar (mi % 10)) = true := isDig_digChar (by omega)
  have e13 : isDig (digChar (s / 10)) = true := isDig_digChar (by omega)
  have e14 : isDig (digChar (s % 10)) = true := isDig_digChar (by omega)
  rw [if_pos (by
    simp only [List.all_cons, List.all_nil, Bool.and_eq_true,
      e1, e2, e3, e4, e5, e6, e7, e8, e9, e10, e11, e12, e13, e14]
    simp)]
  rw [digsVal_pad4_chars y (by omega), digsVal_pad2_chars mo (by omega),
    digsVal_pad2_chars d (by omega), digsVal_pad2_chars h (by omega),
    digsVal_pad2_chars mi (by omega), digsVal_pad2_chars s (by omega)]
  rw [if_pos (by
    simp only [validDate, decide_eq_true_eq]
    exact ⟨hy1, hy2, hmo1, hmo2, hd1, hd2, hh, hmi, hs⟩)]

theorem dateFromChars_elim {cs : List Char} {dt : DateVal}
    (h : dateFromChars cs = some dt) :
    validDate dt.year dt.month dt.day dt.hour dt.minute dt.second = true ∧
    (cs.getLast? = some 'Z' → (datePreDump dt).data = cs) := by
  unfold dateFromChars at h
  split at h
  case _ y1 y2 y3 y4 c1 mo1 mo2 c2 d1 d2 c3 hr1 hr2 c4 mi1 mi2 c5 s1 s2 rest =>
    split at h
    case isFalse => exact Option.noConfusion h
    case isTrue hcond =>
      obtain ⟨rfl, rfl, rfl, rfl, rfl, hrest⟩ := hcond
      simp only [mkDate] at h
      split at h
      case isFalse => exact Option.noConfusion h
      case isTrue hdig =>
        split at h
        case isFalse => exact Option.noConfusion h
        case isTrue hvalid =>
          injection h with h
          subst h
          refine ⟨hvalid, ?_⟩
          intro hz
          simp only [List.all_cons, List.all_nil, Bool.and_eq_true,
            Bool.and_true] at hdig
          obtain ⟨f1, f2, f3, f4, f5, f6, f7, f8, f9, f10, f11, f12, f13, f14⟩ :=
            hdig
          rcases hrest with rfl | rfl
          · simp only [datePreDump]
            rw [pad4_digsVal f1 f2 f3 f4, pad2_digsVal f5 f6, pad2_digsVal f7 f8,
              pad2_digsVal f9 f10, pad2_digsVal f11 f12, pad2_digsVal f13 f14]
            simp
          · exfalso
            simp only [List.getLast?_cons_cons, List.getLast?_singleton] at hz
            exact absurd hz (by decide)
  case _ => exact Option.noConfusion h

/-! ## The Task document (`Task`, types.py lines 164-377)

A `Task` is a `JSONableDict`: a Python `dict` from field name to typed
value, preserving insertion order.  The embedding is an association list
with the `dict` write discipline: updating an existing key keeps its
position, a new key is appended at the end.  Values are already-coerced
typed wrappers (`_parse_if_needed` accepts values of the right wrapper
type unchanged; the claims below only ever store such values). -/

/-- A stored typed value of a Task field. -/
inductive TaskVal where
  | str (s : String) : TaskVal
  | strList (l : List String) : TaskVal
  | uuid (u : Nat) : TaskVal
  | uuidList (l : List Nat) : TaskVal
  | dur (n : Int) : TaskVal
  | date (dt : DateVal) : TaskVal
  | num (v : NumberVal) : TaskVal
  | intVal (n : Int) : TaskVal
deriving DecidableEq

/-- A Task document: insertion-ordered field/value pairs with unique
keys. -/
abbrev TaskDoc := List (String × TaskVal)

/-- Python `dict` lookup. -/
def getVal : TaskDoc → String → Option TaskVal
  | [], _ => none
  | (k', v') :: rest, k => if k' = k then some v' else getVal rest k

/-- Python `dict` write: replace in place if the key exists, else append
at the end (insertion order preserved). -/
def setRaw : TaskDoc → String → TaskVal → TaskDoc
  | [], k, v => [(k, v)]
  | (k', v') :: rest, k, v =>
      if k' = k then (k, v) :: rest else (k', v') :: setRaw rest k v

/-- Python `del` with the `KeyError` swallowed (`Task.duplicate` wraps
each `del` in `try`/`except KeyError: pass`). -/
def delKey : TaskDoc → String → TaskDoc
  | [], _ => []
  | (k', v') :: rest, k =>
      if k' = k then rest else (k', v') :: delKey rest k

/-- The failures the Task operations can raise. -/
inductive TaskErr where
  | uuidImmutable : TaskErr
  | noSuchTag (t : String) : TaskErr
  | badFlags : TaskErr
  | typeAssert : TaskErr
deriving DecidableEq

/-- `Task.__setitem__` (types.py lines 323-326): a `RuntimeError` when
the key is `uuid` and a UUID is already stored, otherwise an ordinary
dict write. -/
def taskSetItem (t : TaskDoc) (k : String) (v : TaskVal) : Except TaskErr TaskDoc :=
  if k = "uuid" ∧ (getVal t "uuid").isSome = true then
    Except.error TaskErr.uuidImmutable
  else Except.ok (setRaw t k v)

/-- The fixed reset set of `Task.duplicate` for `reset_as_new` (types.py
lines 236-237), in source order. -/
def resetAsNewKeys : List String :=
  ["dependencies", "end", "entry", "id", "modified", "reviewed", "start",
   "status", "urgency", "uuid"]

/-- `Task.duplicate` (types.py lines 225-255): flag validation, then a
deep copy (the embedding is pure, so the copy is the value itself) with
the selected keys deleted, each deletion ignoring a missing key.
`Task.generate_uuid` is `False` (its class default, nowhere overridden
in the sources), so `_maybe_populate_uuid` does not add a UUID
placeholder. -/
def duplicate (t : TaskDoc) (resetAsNew resetId resetUuid resetDeps : Bool) :
    Except TaskErr TaskDoc :=
  if resetAsNew = true ∧ (resetUuid = false ∨ resetDeps = false ∨
      resetId = false) then
    Except.error TaskErr.badFlags
  else
    let keysToReset :=
      if resetAsNew = true then resetAsNewKeys
      else (if resetId = true then ["id"] else []) ++
        (if resetUuid = true then ["uuid"] else []) ++
        (if resetDeps = true then ["dependencies"] else [])
    Except.ok (keysToReset.foldl delKey t)

/-- `Task.tag` on a single tag (types.py lines 281-288): extend the
existing tags list in place, or create the field via `__setitem__` on a
`KeyError`.  A stored `tags` value that is not a string list fails the
`get_typed` assertion. -/
def taskTag (t : TaskDoc) (tg : String) : Except TaskErr TaskDoc :=
  match getVal t "tags" with
  | none => Except.ok (setRaw t "tags" (TaskVal.strList [tg]))
  | some (TaskVal.strList l) =>
      Except.ok (setRaw t "tags" (TaskVal.strList (l ++ [tg])))
  | some _ => Except.error TaskErr.typeAssert

/-- Python `list.remove`: drop the first occurrence, or fail. -/
def removeFirst : List String → String → Option (List String)
  | [], _ => none
  | x :: xs, y =>
      if x = y then some xs else (removeFirst xs y).map (fun l => x :: l)

/-- `Task.untag` on a single tag (types.py lines 290-303): remove the
tag from the stored list (defaulting to an empty list when the field is
absent), raising `NoSuchTagError` when `list.remove` fails.  The
emptied list stays stored in the document. -/
def taskUntag (t : TaskDoc) (tg : String) : Except TaskErr TaskDoc :=
  match getVal t "tags" with
  | none =>
      match removeFirst [] tg with
      | none => Except.error (TaskErr.noSuchTag tg)
      | some _ => Except.ok t
  | some (TaskVal.strList l) =>
      match removeFirst l tg with
      | none => Except.error (TaskErr.noSuchTag tg)
      | some l' => Except.ok (setRaw t "tags" (TaskVal.strList l'))
  | some _ => Except.error TaskErr.typeAssert

theorem getVal_setRaw_same (t : TaskDoc) (k : String) (v : TaskVal) :
    getVal (setRaw t k v) k = some v := by
  induction t with
  | nil => simp [setRaw, getVal]
  | cons p rest ih =>
      obtain ⟨k', v'⟩ := p
      by_cases hk : k' = k
      · simp [setRaw, hk, getVal]
      · simp [setRaw, hk, getVal, ih]

theorem getVal_setRaw_other (t : TaskDoc) (k k₂ : String) (v : TaskVal)
    (hne : k₂ ≠ k) : getVal (setRaw t k v) k₂ = getVal t k₂ := by
  induction t with
  | nil => simp [setRaw, getVal, Ne.symm hne]
  | cons p rest ih =>
      obtain ⟨k', v'⟩ := p
      by_cases hk : k' = k
      · subst hk
        simp [setRaw, getVal, Ne.symm hne]
      · by_cases hk2 : k' = k₂
        · simp [setRaw, hk, getVal, hk2, hne]
        · simp [setRaw, hk, getVal, hk2, ih]

theorem setRaw_absent (t : TaskDoc) (k : String) (v : TaskVal)
    (h : getVal t k = none) : setRaw t k v = t ++ [(k, v)] := by
  induction t with
  | nil => simp [setRaw]
  | cons p rest ih =>
      obtain ⟨k', v'⟩ := p
      by_cases hk : k' = k
      · simp [getVal, hk] at h
      · simp only [getVal, if_neg hk] at h
        simp [setRaw, hk, ih h]

theorem removeFirst_eq_none {l : List String} {y : String} :
    removeFirst l y = none ↔ y ∉ l := by
  induction l with
  | nil => simp [removeFirst]
  | cons x xs ih =>
      by_cases hx : x = y
      · subst hx; simp [removeFirst]
      · simp only [removeFirst, if_neg hx]
        rw [Option.map_eq_none', ih, List.mem_cons]
        constructor
        · intro h hc
          rcases hc with hc | hc
          · exact hx hc.symm
          · exact h hc
        · intro h hc
          exact h (Or.inr hc)

/-! ## Hook dispatch (`on_add` hook.py lines 721-754, `on_modify` lines
757-800)

A hook returns the 4-tuple `(statusCode, task_or_none, feedback_or_none,
final_job_or_none)`.  Deferred final jobs are opaque callables; the
embedding gives them opaque numeric identities — dispatch only queues
them, `_do_final_jobs` runs them after the process handoff, outside the
dispatch behaviour the claims describe.  Output is modelled as the list
of lines printed: the serialized task document and/or feedback text.
`sys.exit(rc)` is the `exitCode` of the result; a failed `assert`
(a hook violating the result contract) is `none`. -/

/-- A hook invocation result. -/
structure HookResult where
  rc : Int
  task : Option TaskDoc
  feedback : Option String
  job : Option Nat

/-- One line printed to standard output. -/
inductive OutLine where
  | doc (j : JSONVal) : OutLine
  | msg (s : String) : OutLine

/-- The observable outcome of a dispatch run: how many hooks were
invoked, the printed lines, the process exit status, and the queued
final jobs. -/
structure DispatchResult where
  invoked : Nat
  output : List OutLine
  exitCode : Int
  jobs : List Nat

/-- `_json_pre_dump` of one stored Task value. -/
def valPreDump : TaskVal → JSONVal
  | TaskVal.str s => JSONVal.str s
  | TaskVal.strList l => JSONVal.arr (l.map JSONVal.str)
  | TaskVal.uuid u => JSONVal.str (uuidStr u)
  | TaskVal.uuidList l => JSONVal.arr (l.map (fun u => JSONVal.str (uuidStr u)))
  | TaskVal.dur n => JSONVal.str (durationStr n)
  | TaskVal.date dt => JSONVal.str (datePreDump dt)
  | TaskVal.num v => numberPreDump v
  | TaskVal.intVal n => JSONVal.int n

/-- `JSONableDict._json_pre_dump` for a Task document (the value printed
by `print(task.to_json_str())`). -/
def taskPreDump (t : TaskDoc) : JSONVal :=
  JSONVal.obj (t.map (fun p => (p.1, valPreDump p.2)))

/-- The lines printed on full success of the chain: the serialized task,
then — only if any feedback accumulated — one line joining the feedback
messages with `; `. -/
def successLines (t : TaskDoc) (fb : List String) : List OutLine :=
  OutLine.doc (taskPreDump t) ::
    (if fb = [] then [] else [OutLine.msg (String.intercalate "; " fb)])

/-- The failure path shared by both dispatch loops: assert the feedback
contract, print exactly the failing hook's feedback, exit with its
status code (accumulated feedback and queued jobs are abandoned). -/
def hookFail (rc : Int) (fbk : Option String) (n : Nat) :
    Option DispatchResult :=
  match fbk with
  | some f => some ⟨n + 1, [OutLine.msg f], rc, []⟩
  | none => none

/-- The `on_add` hook loop: thread the task through each hook in order,
accumulating feedback and final jobs; on `task is None or rc != 0` take
the failure path (for a hook returning `rc == 0` with no task the
`assert rc != 0` fails). -/
def onAddGo : List (TaskDoc → HookResult) → TaskDoc → List String →
    List Nat → Nat → Option DispatchResult
  | [], t, fb, jobs, n => some ⟨n, successLines t fb, 0, jobs⟩
  | hook :: hooks, t, fb, jobs, n =>
      match hook t with
      | ⟨rc, some t2, fbk, job⟩ =>
          if rc ≠ 0 then hookFail rc fbk n
          else onAddGo hooks t2 (fb ++ fbk.toList) (jobs ++ job.toList) (n + 1)
      | ⟨rc, none, fbk, _⟩ =>
          if rc = 0 then none else hookFail rc fbk n

/-- `on_add` (hook.py lines 721-754) after the input task has been
parsed. -/
def onAdd (hooks : List (TaskDoc → HookResult)) (t : TaskDoc) :
    Option DispatchResult :=
  onAddGo hooks t [] [] 0

/-- The `on_modify` hook loop; each hook receives the threaded modified
task and the fixed original task. -/
def onModifyGo : List (TaskDoc → TaskDoc → HookResult) → TaskDoc → TaskDoc →
    List String → List Nat → Nat → Option DispatchResult
  | [], _, t, fb, jobs, n => some ⟨n, successLines t fb, 0, jobs⟩
  | hook :: hooks, orig, t, fb, jobs, n =>
      match hook t orig with
      | ⟨rc, some t2, fbk, job⟩ =>
          if rc ≠ 0 then hookFail rc fbk n
          else onModifyGo hooks orig t2 (fb ++ fbk.toList) (jobs ++ job.toList)
            (n + 1)
      | ⟨rc, none, fbk, _⟩ =>
          if rc = 0 then none else hookFail rc fbk n

/-- `on_modify` (hook.py lines 757-800) after the two input tasks have
been parsed: an empty modified task short-circuits before any hook runs,
printing the original task and exiting 0. -/
def onModify (hooks : List (TaskDoc → TaskDoc → HookResult))
    (orig modified : TaskDoc) : Option DispatchResult :=
  if modified = [] then some ⟨0, [OutLine.doc (taskPreDump orig)], 0, []⟩
  else onModifyGo hooks orig modified [] [] 0

theorem onAddGo_shortCircuit :
    ∀ (pre : List (TaskDoc → HookResult)) (post : List (TaskDoc → HookResult))
      (bad : TaskDoc → HookResult) (rc : Int) (msg : String),
      (∀ hook ∈ pre, ∀ t, (hook t).rc = 0 ∧ (hook t).task.isSome = true) →
      (∀ t, (bad t).rc = rc ∧ (bad t).feedback = some msg) →
      rc ≠ 0 →
      ∀ t fb jobs n,
        onAddGo (pre ++ bad :: post) t fb jobs n =
          some ⟨n + (pre.length + 1), [OutLine.msg msg], rc, []⟩
  | [], post, bad, rc, msg, _, hbad, hrc, t, fb, jobs, n => by
      obtain ⟨hb1, hb2⟩ := hbad t
      rcases hres : bad t with ⟨rc0, otask, fbk, job⟩
      rw [hres] at hb1 hb2
      simp only at hb1 hb2
      subst hb1
      subst hb2
      simp only [List.nil_append, onAddGo, hres]
      cases otask with
      | none => simp [if_neg hrc, hookFail]
      | some t2 => simp [if_pos hrc, hookFail]
  | hook :: pre, post, bad, rc, msg, hpre, hbad, hrc, t, fb, jobs, n => by
      obtain ⟨hp1, hp2⟩ := hpre hook (List.mem_cons_self hook pre) t
      rcases hres : hook t with ⟨rc0, otask, fbk, job⟩
      rw [hres] at hp1 hp2
      simp only at hp1 hp2
      subst hp1
      obtain ⟨t2, rfl⟩ := Option.isSome_iff_exists.mp hp2
      simp only [List.cons_append, onAddGo, hres]
      rw [if_neg (by simp)]
      simp only [List.append_eq]
      rw [onAddGo_shortCircuit pre post bad rc msg
        (fun g hg => hpre g (List.mem_cons_of_mem hook hg)) hbad hrc]
      congr 2
      simp only [List.length_cons]
      omega

theorem onModifyGo_shortCircuit :
    ∀ (pre : List (TaskDoc → TaskDoc → HookResult))
      (post : List (TaskDoc → TaskDoc → HookResult))
      (bad : TaskDoc → TaskDoc → HookResult) (orig : TaskDoc) (rc : Int)
      (msg : String),
      (∀ hook ∈ pre, ∀ t, (hook t orig).rc = 0 ∧
        (hook t orig).task.isSome = true) →
      (∀ t, (bad t orig).rc = rc ∧ (bad t orig).feedback = some msg) →
      rc ≠ 0 →
      ∀ t fb jobs n,
        onModifyGo (pre ++ bad :: post) orig t fb jobs n =
          some ⟨n + (pre.length + 1), [OutLine.msg msg], rc, []⟩
  | [], post, bad, orig, rc, msg, _, hbad, hrc, t, fb, jobs, n => by
      obtain ⟨hb1, hb2⟩ := hbad t
      rcases hres : bad t orig with ⟨rc0, otask, fbk, job⟩
      rw [hres] at hb1 hb2
      simp only at hb1 hb2
      subst hb1
      subst hb2
      simp only [List.nil_append, onModifyGo, hres]
      cases otask with
      | none => simp [if_neg hrc, hookFail]
      | some t2 => simp [if_pos hrc, hookFail]
  | hook :: pre, post, bad, orig, rc, msg, hpre, hbad, hrc, t, fb, jobs, n => by
      obtain ⟨hp1, hp2⟩ := hpre hook (List.mem_cons_self hook pre) t
      rcases hres : hook t orig with ⟨rc0, otask, fbk, job⟩
      rw [hres] at hp1 hp2
      simp only at hp1 hp2
      subst hp1
      obtain ⟨t2, rfl⟩ := Option.isSome_iff_exists.mp hp2
      simp only [List.cons_append, onModifyGo, hres]
      rw [if_neg (by simp)]
      simp only [List.append_eq]
      rw [onModifyGo_shortCircuit pre post bad orig rc msg
        (fun g hg => hpre g (List.mem_cons_of_mem hook hg)) hbad hrc]
      congr 2
      simp only [List.length_cons]
      omega

theorem taskTag_absent {t : TaskDoc} {tg : String}
    (h : getVal t "tags" = none) :
    taskTag t tg = Except.ok (setRaw t "tags" (TaskVal.strList [tg])) := by
  unfold taskTag
  rw [h]

theorem taskTag_present {t : TaskDoc} {tg : String} {l : List String}
    (h : getVal t "tags" = some (TaskVal.strList l)) :
    taskTag t tg = Except.ok (setRaw t "tags" (TaskVal.strList (l ++ [tg]))) := by
  unfold taskTag
  rw [h]

theorem taskUntag_absent {t : TaskDoc} {tg : String}
    (h : getVal t "tags" = none) :
    taskUntag t tg = Except.error (TaskErr.noSuchTag tg) := by
  unfold taskUntag
  rw [h]
  exact rfl

theorem taskUntag_present {t : TaskDoc} {tg : String} {l : List String}
    (h : getVal t "tags" = some (TaskVal.strList l)) :
    taskUntag t tg =
      (match removeFirst l tg with
       | none => Except.error (TaskErr.noSuchTag tg)
       | some l2 => Except.ok (setRaw t "tags" (TaskVal.strList l2))) := by
  unfold taskUntag
  rw [h]

theorem setRaw_append_key (t : TaskDoc) (k : String) (v v2 : TaskVal)
    (h : getVal t k = none) :
    setRaw (t ++ [(k, v)]) k v2 = t ++ [(k, v2)] := by
  induction t with
  | nil => simp [setRaw]
  | cons p rest ih =>
      obtain ⟨k2, v3⟩ := p
      by_cases hk : k2 = k
      · simp [getVal, hk] at h
      · simp only [getVal, if_neg hk] at h
        simp [setRaw, hk, ih h]

theorem getVal_append_key (t : TaskDoc) (k : String) (v : TaskVal)
    (h : getVal t k = none) :
    getVal (t ++ [(k, v)]) k = some v := by
  rw [← setRaw_absent t k v h]
  exact getVal_setRaw_same t k v

/-- A convenient restatement: a string is determined by its character
list. -/
theorem stringDataEq {s t : String} (h : s.data = t.data) : s = t := by
  cases s
  cases t
  exact congrArg String.mk h

/-! ## The claims -/

/-- C1 (amended).  Round-trip of the Typed Value wrappers: for the
string and number wrappers, `serialize (parse x) = x` for every JSON
value `x` the parser accepts (including the int/float subtype split the
number wrapper remembers).  For the duration, UUID and timestamp
wrappers, serialization is a canonicalization: re-parsing the serialized
form always yields the same value, and for timestamps it is the literal
identity on inputs already in the canonical `YYYY-MM-DDTHH:MM:SSZ`
spelling.  `"P1M"` is not accepted by the duration parser at all —
months are rejected, not normalized to a 30-day form (that normalization
is the external tracker's, performed before the value ever reaches this
code). -/
theorem c1_typed_value_roundtrip_amended :
    (∀ j v, stringFromJson j = some v → stringPreDump v = j) ∧
    (∀ j v, numberFromJson j = some v → numberPreDump v = j) ∧
    (∀ s d, durationFromStr s = some d →
      durationFromStr (durationStr d) = some d) ∧
    (∀ s u, uuidFromStr s = some u → uuidFromStr (uuidStr u) = some u) ∧
    (∀ s dt, dateFromStr s = some dt →
      dateFromStr (datePreDump dt) = some dt ∧
      (s.data.getLast? = some 'Z' → datePreDump dt = s)) ∧
    durationFromStr "P1M" = none := by
  refine ⟨?_, ?_, ?_, ?_, ?_, rfl⟩
  · intro j v h
    cases j <;> simp_all [stringFromJson, stringPreDump]
  · intro j v h
    cases j <;> simp only [numberFromJson, Option.some.injEq,
      reduceCtorEq] at h <;> subst h <;> rfl
  · intro s d h
    exact durationFromStr_reparse h
  · intro s u h
    exact uuidStr_roundtrip u (uuidFromStr_lt h)
  · intro s dt h
    obtain ⟨hv, hid⟩ := dateFromChars_elim h
    exact ⟨dateFromChars_preDump dt hv, fun hz => stringDataEq (hid hz)⟩

/-- C1 counterexample.  The claim as stated is false on the code: the
duration parser rejects `"P1M"` outright rather than parsing it to a
30-day form, and duration, UUID and timestamp round-trips are not the
identity on every accepted input — `"P0D"` parses but serializes as
`"PT0S"`, an uppercase UUID spelling parses but serializes lowercase,
and a `+00:00` timestamp spelling parses but serializes with `Z`. -/
theorem c1_typed_value_roundtrip_counterexample :
    durationFromStr "P1M" = none ∧
    (durationFromStr "P0D" = some 0 ∧ durationStr 0 ≠ "P0D") ∧
    (uuidFromStr "00000000-0000-0000-0000-00000000000A" = some 10 ∧
      uuidStr 10 ≠ "00000000-0000-0000-0000-00000000000A") ∧
    (dateFromStr "2024-01-02T03:04:05+00:00" = some ⟨2024, 1, 2, 3, 4, 5⟩ ∧
      datePreDump ⟨2024, 1, 2, 3, 4, 5⟩ ≠ "2024-01-02T03:04:05+00:00") := by
  refine ⟨rfl, ⟨rfl, by decide⟩, ⟨by decide, by decide⟩, ⟨by decide, by decide⟩⟩

/-- C1 witness: the amended round-trip at concrete inputs of each
kind. -/
theorem c1_typed_value_roundtrip_witness :
    stringPreDump "buy milk" = JSONVal.str "buy milk" ∧
    numberPreDump (NumberVal.ofInt 3) = JSONVal.int 3 ∧
    durationFromStr (durationStr 183600) = some 183600 ∧
    uuidFromStr (uuidStr 161) = some 161 ∧
    dateFromStr (datePreDump ⟨2024, 1, 2, 3, 4, 5⟩) =
      some ⟨2024, 1, 2, 3, 4, 5⟩ :=
  ⟨c1_typed_value_roundtrip_amended.1 (JSONVal.str "buy milk") "buy milk" rfl,
   c1_typed_value_roundtrip_amended.2.1 (JSONVal.int 3) (NumberVal.ofInt 3) rfl,
   c1_typed_value_roundtrip_amended.2.2.1 "P2DT3H" 183600 (by decide),
   c1_typed_value_roundtrip_amended.2.2.2.1
     "00000000-0000-0000-0000-0000000000a1" 161 (by decide),
   (c1_typed_value_roundtrip_amended.2.2.2.2.1 "2024-01-02T03:04:05Z"
     ⟨2024, 1, 2, 3, 4, 5⟩ (by decide)).1⟩

/-- C2.  Dispatch short-circuit: in both `on_add` and `on_modify`, when
every hook before position `i` succeeds (status 0 with a document) and
the hook at position `i` fails (nonzero status with a feedback message),
dispatch invokes exactly the first `i + 1` hooks — none after the
failing one — prints that hook's feedback as the only output (no
serialized task, none of the earlier hooks' accumulated feedback), and
exits the process with the failing hook's status code.  The hooks after
position `i` are universally quantified, so the outcome does not depend
on them at all. -/
theorem c2_dispatch_short_circuit
    (preA postA : List (TaskDoc → HookResult)) (badA : TaskDoc → HookResult)
    (preM postM : List (TaskDoc → TaskDoc → HookResult))
    (badM : TaskDoc → TaskDoc → HookResult)
    (t0 orig modified : TaskDoc) (rcA rcM : Int) (msgA msgM : String)
    (hpreA : ∀ hook ∈ preA, ∀ t, (hook t).rc = 0 ∧ (hook t).task.isSome = true)
    (hbadA : ∀ t, (badA t).rc = rcA ∧ (badA t).feedback = some msgA)
    (hrcA : rcA ≠ 0)
    (hpreM : ∀ hook ∈ preM, ∀ t,
      (hook t orig).rc = 0 ∧ (hook t orig).task.isSome = true)
    (hbadM : ∀ t, (badM t orig).rc = rcM ∧ (badM t orig).feedback = some msgM)
    (hrcM : rcM ≠ 0)
    (hmod : modified ≠ []) :
    onAdd (preA ++ badA :: postA) t0 =
      some ⟨preA.length + 1, [OutLine.msg msgA], rcA, []⟩ ∧
    onModify (preM ++ badM :: postM) orig modified =
      some ⟨preM.length + 1, [OutLine.msg msgM], rcM, []⟩ := by
  constructor
  · rw [onAdd,
      onAddGo_shortCircuit preA postA badA rcA msgA hpreA hbadA hrcA t0 [] [] 0]
    simp
  · rw [onModify, if_neg hmod,
      onModifyGo_shortCircuit preM postM badM orig rcM msgM hpreM hbadM hrcM
        modified [] [] 0]
    simp

/-- C2 witness: a three-hook `on_add` chain whose second hook fails with
status 3 and message `boom` (the first hook contributes feedback that is
then correctly discarded), and a two-hook `on_modify` chain whose second
hook fails with status 7. -/
theorem c2_dispatch_short_circuit_witness :
    onAdd
      [fun t => HookResult.mk 0 (some t) (some "first") none,
       fun _ => HookResult.mk 3 none (some "boom") none,
       fun t => HookResult.mk 0 (some t) none none]
      [("description", TaskVal.str "x")] =
      some ⟨2, [OutLine.msg "boom"], 3, []⟩ ∧
    onModify
      [fun t _ => HookResult.mk 0 (some t) (some "m1") none,
       fun _ _ => HookResult.mk 7 none (some "modfail") none]
      [("description", TaskVal.str "o")] [("description", TaskVal.str "m")] =
      some ⟨2, [OutLine.msg "modfail"], 7, []⟩ :=
  c2_dispatch_short_circuit
    [fun t => HookResult.mk 0 (some t) (some "first") none]
    [fun t => HookResult.mk 0 (some t) none none]
    (fun _ => HookResult.mk 3 none (some "boom") none)
    [fun t _ => HookResult.mk 0 (some t) (some "m1") none]
    []
    (fun _ _ => HookResult.mk 7 none (some "modfail") none)
    [("description", TaskVal.str "x")]
    [("description", TaskVal.str "o")]
    [("description", TaskVal.str "m")]
    3 7 "boom" "modfail"
    (by
      intro hook hm t
      rw [List.mem_singleton] at hm
      subst hm
      exact ⟨rfl, rfl⟩)
    (fun t => ⟨rfl, rfl⟩)
    (by decide)
    (by
      intro hook hm t
      rw [List.mem_singleton] at hm
      subst hm
      exact ⟨rfl, rfl⟩)
    (fun t => ⟨rfl, rfl⟩)
    (by decide)
    (by decide)

/-- C3 (code bug).  `Task.duplicate()` with default arguments deletes
the listed reset keys — but for the dependency list it deletes a key
literally named `dependencies`, while the dependency-list field of a
Task is named `depends` (`Task._key_map`, `Task.add_dependency`, and
taskwarrior's export format all use `depends`; `duplicate`'s own
`ValueError` message insists dependencies must be reset for a new task).
Evaluated at a task carrying a `depends` field: `status` is removed as
claimed, but `depends` survives the duplication. -/
theorem c3_duplicate_keeps_depends :
    duplicate
      [("description", TaskVal.str "task"), ("status", TaskVal.str "completed"),
       ("depends", TaskVal.uuidList [5])] true true true true =
    Except.ok
      [("description", TaskVal.str "task"),
       ("depends", TaskVal.uuidList [5])] := rfl

/-- C4.  Requesting `duplicate` with `reset_as_new` while declining to
reset the numeric id, the UUID or the dependencies fails with a
`ValueError` before any copying or deletion happens (the embedding is
pure, so the input task is untouched by construction; the Python
function raises before `deepcopy` runs). -/
theorem c4_duplicate_flag_contract (t : TaskDoc) (rid ruu rdp : Bool)
    (h : rid = false ∨ ruu = false ∨ rdp = false) :
    duplicate t true rid ruu rdp = Except.error TaskErr.badFlags := by
  rw [duplicate, if_pos ⟨rfl, by tauto⟩]

/-- C4 witness: `duplicate(reset_as_new=True, reset_id=False)` on a
concrete task fails with the flag-contract error. -/
theorem c4_duplicate_flag_contract_witness :
    duplicate [("description", TaskVal.str "x")] true false true true =
      Except.error TaskErr.badFlags :=
  c4_duplicate_flag_contract [("description", TaskVal.str "x")] false true true
    (Or.inl rfl)

/-- C5.  The Task identifier is immutable once set: writing `uuid` when
the field already holds a value fails with the `RuntimeError` of
`Task.__setitem__` (the stored identifier is untouched — in the pure
embedding the failing write returns no document at all), while writing
`uuid` when the field is absent succeeds and stores the value. -/
theorem c5_uuid_immutable (t : TaskDoc) (v x : TaskVal) :
    (getVal t "uuid" = some v →
      taskSetItem t "uuid" x = Except.error TaskErr.uuidImmutable) ∧
    (getVal t "uuid" = none →
      taskSetItem t "uuid" x = Except.ok (setRaw t "uuid" x) ∧
      getVal (setRaw t "uuid" x) "uuid" = some x) := by
  constructor
  · intro h
    rw [taskSetItem, if_pos ⟨rfl, by rw [h]; rfl⟩]
  · intro h
    refine ⟨?_, getVal_setRaw_same t "uuid" x⟩
    rw [taskSetItem, if_neg (by
      rintro ⟨-, hs⟩
      rw [h] at hs
      exact Bool.noConfusion hs)]

/-- C5 witness: both directions at concrete tasks — overwriting a set
identifier fails, setting an absent identifier succeeds. -/
theorem c5_uuid_immutable_witness :
    taskSetItem [("uuid", TaskVal.uuid 5)] "uuid" (TaskVal.uuid 7) =
      Except.error TaskErr.uuidImmutable ∧
    (taskSetItem [("description", TaskVal.str "x")] "uuid" (TaskVal.uuid 7) =
      Except.ok (setRaw [("description", TaskVal.str "x")] "uuid"
        (TaskVal.uuid 7)) ∧
     getVal (setRaw [("description", TaskVal.str "x")] "uuid"
       (TaskVal.uuid 7)) "uuid" = some (TaskVal.uuid 7)) :=
  ⟨(c5_uuid_immutable [("uuid", TaskVal.uuid 5)] (TaskVal.uuid 5)
      (TaskVal.uuid 7)).1 rfl,
   (c5_uuid_immutable [("description", TaskVal.str "x")] (TaskVal.uuid 5)
      (TaskVal.uuid 7)).2 rfl⟩

/-- C6 counterexample.  `tag` is not idempotent: on a task whose tags
list already contains `a`, `Task.tag` extends the list unconditionally,
producing the duplicate entry `[a, a]` — the document changes. -/
theorem c6_tag_idempotent_counterexample :
    taskTag [("description", TaskVal.str "x"), ("tags", TaskVal.strList ["a"])]
      "a" =
      Except.ok [("description", TaskVal.str "x"),
        ("tags", TaskVal.strList ["a", "a"])] ∧
    [("description", TaskVal.str "x"), ("tags", TaskVal.strList ["a", "a"])] ≠
      [("description", TaskVal.str "x"), ("tags", TaskVal.strList ["a"])] :=
  ⟨rfl, by decide⟩

/-- C6 (amended).  `Task.tag` on a single tag appends unconditionally:
with the tags field present it extends the stored list with the tag —
even when the tag is already present, duplicating it — and with the
field absent it creates the field holding just that tag; every other
field of the document is unchanged.  Callers obtain idempotence by
guarding with `has_tag` first (as `inbox_if_hook_gen` and
`check_log_problems` do), not from `tag` itself. -/
theorem c6_tag_appends (t : TaskDoc) (tg : String) (l : List String) :
    (getVal t "tags" = some (TaskVal.strList l) →
      taskTag t tg =
        Except.ok (setRaw t "tags" (TaskVal.strList (l ++ [tg]))) ∧
      getVal (setRaw t "tags" (TaskVal.strList (l ++ [tg]))) "tags" =
        some (TaskVal.strList (l ++ [tg])) ∧
      (∀ k, k ≠ "tags" →
        getVal (setRaw t "tags" (TaskVal.strList (l ++ [tg]))) k =
          getVal t k)) ∧
    (getVal t "tags" = none →
      taskTag t tg = Except.ok (t ++ [("tags", TaskVal.strList [tg])])) := by
  constructor
  · intro h
    exact ⟨taskTag_present h, getVal_setRaw_same t "tags" _,
      fun k hk => getVal_setRaw_other t "tags" k _ hk⟩
  · intro h
    rw [taskTag_absent h, setRaw_absent t "tags" _ h]

/-- C6 witness: tagging `a` onto a task already tagged `a` appends a
duplicate, leaving other fields alone. -/
theorem c6_tag_appends_witness :
    taskTag [("description", TaskVal.str "x"), ("tags", TaskVal.strList ["a"])]
      "a" =
      Except.ok (setRaw
        [("description", TaskVal.str "x"), ("tags", TaskVal.strList ["a"])]
        "tags" (TaskVal.strList (["a"] ++ ["a"]))) ∧
    getVal (setRaw
        [("description", TaskVal.str "x"), ("tags", TaskVal.strList ["a"])]
        "tags" (TaskVal.strList (["a"] ++ ["a"]))) "tags" =
      some (TaskVal.strList (["a"] ++ ["a"])) ∧
    (∀ k, k ≠ "tags" →
      getVal (setRaw
        [("description", TaskVal.str "x"), ("tags", TaskVal.strList ["a"])]
        "tags" (TaskVal.strList (["a"] ++ ["a"]))) k =
        getVal [("description", TaskVal.str "x"),
          ("tags", TaskVal.strList ["a"])] k) :=
  (c6_tag_appends
    [("description", TaskVal.str "x"), ("tags", TaskVal.strList ["a"])]
    "a" ["a"]).1 rfl

/-- C7 counterexample.  `tag(a)` then `untag(a)` on a task that had no
tags field does not restore the original document: the emptied tags
field stays in place (`Task.untag` removes list elements but never
deletes the field), so the final document still has a `tags` field
holding the empty list. -/
theorem c7_untag_keeps_field_counterexample :
    taskTag [("description", TaskVal.str "x")] "a" =
      Except.ok [("description", TaskVal.str "x"),
        ("tags", TaskVal.strList ["a"])] ∧
    taskUntag [("description", TaskVal.str "x"),
        ("tags", TaskVal.strList ["a"])] "a" =
      Except.ok [("description", TaskVal.str "x"),
        ("tags", TaskVal.strList [])] ∧
    getVal [("description", TaskVal.str "x"), ("tags", TaskVal.strList [])]
        "tags" ≠ none :=
  ⟨rfl, rfl, by decide⟩

/-- C7 (amended).  On a task with no tags field, `tag(t)` creates the
field and `untag(t)` then removes the tag from the list but keeps the
now-empty field in the document: the result is the original document
plus a `tags` field holding the empty list, not the original document.
The tags field is never deleted when its last tag is removed. -/
theorem c7_tag_untag_leaves_empty_field (t : TaskDoc) (tg : String)
    (h : getVal t "tags" = none) :
    taskTag t tg = Except.ok (t ++ [("tags", TaskVal.strList [tg])]) ∧
    taskUntag (t ++ [("tags", TaskVal.strList [tg])]) tg =
      Except.ok (t ++ [("tags", TaskVal.strList [])]) ∧
    getVal (t ++ [("tags", TaskVal.strList [])]) "tags" =
      some (TaskVal.strList []) := by
  refine ⟨?_, ?_, getVal_append_key t "tags" _ h⟩
  · rw [taskTag_absent h, setRaw_absent t "tags" _ h]
  · rw [taskUntag_present (getVal_append_key t "tags" _ h)]
    have hrf : removeFirst [tg] tg = some [] := by simp [removeFirst]
    rw [hrf]
    show Except.ok (setRaw (t ++ [("tags", TaskVal.strList [tg])]) "tags"
      (TaskVal.strList [])) = _
    rw [setRaw_append_key t "tags" _ _ h]

/-- C7 witness: the tag-then-untag sequence at a concrete task, ending
with an empty but present tags field. -/
theorem c7_tag_untag_leaves_empty_field_witness :
    taskTag [("description", TaskVal.str "x")] "a" =
      Except.ok ([("description", TaskVal.str "x")] ++
        [("tags", TaskVal.strList ["a"])]) ∧
    taskUntag ([("description", TaskVal.str "x")] ++
        [("tags", TaskVal.strList ["a"])]) "a" =
      Except.ok ([("description", TaskVal.str "x")] ++
        [("tags", TaskVal.strList [])]) ∧
    getVal ([("description", TaskVal.str "x")] ++
        [("tags", TaskVal.strList [])]) "tags" =
      some (TaskVal.strList []) :=
  c7_tag_untag_leaves_empty_field [("description", TaskVal.str "x")] "a" rfl

/-- C8.  `Task.untag` of a single tag that is not present fails with
`NoSuchTagError`, both when the tags field exists without that tag and
when the tags field is absent entirely (the absent field defaults to an
empty list, from which `list.remove` fails). -/
theorem c8_untag_missing_fails (t : TaskDoc) (tg : String) (l : List String)
    (h : getVal t "tags" = none ∨
      (getVal t "tags" = some (TaskVal.strList l) ∧ tg ∉ l)) :
    taskUntag t tg = Except.error (TaskErr.noSuchTag tg) := by
  rcases h with h | ⟨h, hmem⟩
  · exact taskUntag_absent h
  · rw [taskUntag_present h, removeFirst_eq_none.mpr hmem]

/-- C8 witness: untagging `a` from a task whose tags list holds only
`b` fails with `NoSuchTagError a`. -/
theorem c8_untag_missing_fails_witness :
    taskUntag [("tags", TaskVal.strList ["b"])] "a" =
      Except.error (TaskErr.noSuchTag "a") :=
  c8_untag_missing_fails [("tags", TaskVal.strList ["b"])] "a" ["b"]
    (Or.inr ⟨rfl, by decide⟩)

/-- C9.  Duration serialization (`JSONableDuration.__str__`): a zero
duration serializes as exactly `PT0S`; 90000 seconds serializes as
`P1DT1H`; the quoted negative example, -3600 seconds, serializes as
`PT-1H`; and in general every negative duration serializes exactly as
the corresponding positive duration with a `-` inserted in front of
each emitted component's digit run (`negMark`), so each emitted nonzero
component carries its own `-` prefix and zero components are omitted on
both sides alike. -/
theorem c9_duration_formatting :
    durationStr 0 = "PT0S" ∧
    durationStr 90000 = "P1DT1H" ∧
    durationStr (-3600) = "PT-1H" ∧
    (∀ n : Int, n < 0 →
      (durationStr n).data = negMark (durationStr (-n)).data) := by
  refine ⟨rfl, by decide, by decide, ?_⟩
  intro n hn
  exact durationStr_neg_negMark n hn

/-- C9 witness: the negative-marking law at -90000 seconds,
`P-1DT-1H`. -/
theorem c9_duration_formatting_witness :
    ((-90000 : Int) < 0) ∧
    (durationStr (-90000)).data = negMark (durationStr (-(-90000))).data :=
  ⟨by decide, c9_duration_formatting.2.2.2 (-90000) (by decide)⟩

/-- C10.  `on_modify` with an empty modified task (no fields at all)
invokes none of the supplied hooks, prints exactly one line — the
original task's serialization — and exits with status 0; the special
case fires before the hook loop, so the outcome is the same whatever
hooks are supplied. -/
theorem c10_empty_modified_task
    (hooks : List (TaskDoc → TaskDoc → HookResult)) (orig : TaskDoc) :
    onModify hooks orig [] =
      some ⟨0, [OutLine.doc (taskPreDump orig)], 0, []⟩ := by
  rw [onModify, if_pos rfl]
